import Mathlib

/-!
# 3d-function-renderer: camera / projection pipeline

A shallow embedding of `src/main.cpp`.

* The C++ `float` is modelled by an arbitrary linearly ordered field `α`
  (exact arithmetic, no rounding); concrete evaluations are carried out over `ℚ`,
  statements that involve trigonometric values over `ℝ`.
* The `<cmath>` routines `cosf`, `sinf`, `tanf` and the constant `M_PI` are external to the
  repository; they are supplied through a `Libm` record.
* `std::sort` is external as well; it is modelled by an insertion sort driven by the very
  comparator lambda that the source hands to it.
* The C++ `int` is the 32-bit integer, a value of `ℤ` between `INT_MIN` and `INT_MAX`. The
  conversion of a `float` to `int` truncates towards zero when the result fits; an `int`
  subtraction that leaves the range wraps around (`wrapInt32`).
* The SDL window and renderer are external; a redraw is modelled by the list of calls it
  issues, and the manager records the frames drawn so far.
-/

namespace Renderer

/-! ## Data model -/

/-- Class `Vec3`: three floats. -/
structure Vec3 (α : Type) where
  x : α
  y : α
  z : α
deriving DecidableEq

/-- Class `Vec4`: three floats and the attribute `a`. -/
structure Vec4 (α : Type) where
  x : α
  y : α
  z : α
  a : α
deriving DecidableEq

/-- The `<cmath>` entities the source relies on: `cosf`, `sinf`, `tanf` and `M_PI`. -/
structure Libm (α : Type) where
  cosf : α → α
  sinf : α → α
  tanf : α → α
  M_PI : α

/-- Class `CameraTransform`: the private pose and lens fields followed by the public
`int width` and `int height`. -/
structure CameraTransform (α : Type) where
  camPos : Vec3 α
  rotX : α
  cosCamRotX : α
  sinCamRotX : α
  rotY : α
  cosCamRotY : α
  sinCamRotY : α
  fov : α
  inverseTanCamFovOver2 : α
  width : Int
  height : Int
deriving DecidableEq

section Defs

variable {α : Type} [LinearOrderedField α]

/-! ## Point transform -/

/-- The first three assignments to `vector` in `transformVec`: translate by the camera
position, rotate about the vertical axis, rotate about the horizontal axis. -/
def cameraSpace (c : CameraTransform α) (v : Vec4 α) : Vec3 α :=
  -- translate
  let v0 : Vec3 α := ⟨v.x - c.camPos.x, v.y - c.camPos.y, v.z - c.camPos.z⟩
  -- rotate
  let v1 : Vec3 α :=
    ⟨v0.x * c.cosCamRotY + v0.z * c.sinCamRotY, v0.y, v0.z * c.cosCamRotY - v0.x * c.sinCamRotY⟩
  ⟨v1.x, v1.y * c.cosCamRotX - v1.z * c.sinCamRotX, v1.y * c.sinCamRotX + v1.z * c.cosCamRotX⟩

/-- The body of `transformVec` instrumented with a log: the second component lists, in
program order, the value of `vector.z` at every division the call executes. -/
def transformVecTraced (c : CameraTransform α) (v : Vec4 α) : Vec4 α × List α :=
  let vector := cameraSpace c v
  if vector.z ≤ 0 then
    (⟨0, 0, -1, 0⟩, [])
  else
    -- perspective
    let px := vector.x / (vector.z * c.inverseTanCamFovOver2)
    let py := vector.y / (vector.z * c.inverseTanCamFovOver2)
    -- fit
    let sx := 0.5 * (c.width : α) + px * (c.width : α)
    let sy := 0.5 * (c.height : α) - py * (c.width : α)
    (⟨sx, sy, vector.z, v.a⟩, [vector.z, vector.z])

/-- Method `CameraTransform::transformVec`. -/
def transformVec (c : CameraTransform α) (v : Vec4 α) : Vec4 α :=
  (transformVecTraced c v).1

/-! ## Batch transform and depth sort -/

/-- The comparator lambda handed to `std::sort`: `a.z > b.z`. -/
def depthComp (a b : Vec4 α) : Bool :=
  decide (a.z > b.z)

/-- Insert `v` in front of the first element that `comp` places after it. -/
def sortInsert (comp : Vec4 α → Vec4 α → Bool) (v : Vec4 α) :
    List (Vec4 α) → List (Vec4 α)
  | [] => [v]
  | w :: ws => if comp v w then v :: w :: ws else w :: sortInsert comp v ws

/-- Model of `std::sort(first, last, comp)`: insertion sort under `comp`. -/
def stdSort (comp : Vec4 α → Vec4 α → Bool) : List (Vec4 α) → List (Vec4 α)
  | [] => []
  | v :: vs => sortInsert comp v (stdSort comp vs)

/-- One iteration of the range-for loop of `transformSpace`. -/
def transformSpaceStep (c : CameraTransform α) (transformed : List (Vec4 α)) (v : Vec4 α) :
    List (Vec4 α) :=
  let vec := transformVec c v
  if vec.z > 0 then transformed ++ [vec] else transformed

/-- Method `CameraTransform::transformSpace`. -/
def transformSpace (c : CameraTransform α) (solutions : List (Vec4 α)) : List (Vec4 α) :=
  let transformed := solutions.foldl (transformSpaceStep c) []
  stdSort depthComp transformed

/-! ## Construction and mutation of the camera -/

/-- Constant `CameraTransform::posStep`. -/
def posStep : α := 2

/-- Constant `CameraTransform::rotStep`: two degrees in radians. -/
def rotStep (m : Libm α) : α := 2 * m.M_PI / 180

/-- The least value of the 32-bit `int`. -/
def INT_MIN : Int := -2147483648

/-- The greatest value of the 32-bit `int`. -/
def INT_MAX : Int := 2147483647

/-- Reduction of an integer to the 32-bit two's complement range: what an `int` operation
delivers when its exact result leaves the range (undefined behaviour in C++; the hardware
wraps around). -/
def wrapInt32 (n : Int) : Int :=
  (n + 2147483648) % 4294967296 - 2147483648

/-- Truncation towards zero: the integer part of `f`. -/
def truncate [FloorRing α] (f : α) : Int :=
  if 0 ≤ f then Int.floor f else Int.ceil f

/-- Conversion of a `float` to `int`, as performed when the constructor stores its `float`
arguments `width` and `height` into the `int` members and when a `float` is passed for an
`int` parameter: truncation towards zero when the truncated value is an `int`. Otherwise the
conversion is undefined in C++; the value taken here is `INT_MIN`, which the conversion
instruction of the hardware delivers. -/
def floatToInt [FloorRing α] (f : α) : Int :=
  if INT_MIN ≤ truncate f ∧ truncate f ≤ INT_MAX then truncate f else INT_MIN

/-- The six-argument constructor of `CameraTransform`. -/
def CameraTransform.ctor [FloorRing α] (m : Libm α) (camPos : Vec3 α)
    (rotX rotY fov width height : α) : CameraTransform α where
  camPos := camPos
  rotX := rotX
  cosCamRotX := m.cosf rotX
  sinCamRotX := m.sinf rotX
  rotY := rotY
  cosCamRotY := m.cosf rotY
  sinCamRotY := m.sinf rotY
  fov := fov
  inverseTanCamFovOver2 := 1 / m.tanf (fov / 2)
  width := floatToInt width
  height := floatToInt height

/-- The argument-free constructor of `CameraTransform`; `M_PI_2` is `M_PI / 2`. -/
def CameraTransform.defaultCtor [FloorRing α] (m : Libm α) : CameraTransform α :=
  CameraTransform.ctor m ⟨0, 30, -60⟩ (-30 * m.M_PI / 180) 0 (m.M_PI / 2) 400 400

/-- Method `moveForward`. -/
def moveForward (m : Libm α) (c : CameraTransform α) : CameraTransform α :=
  { c with camPos := ⟨c.camPos.x + posStep * m.cosf (m.M_PI / 2 + c.rotY), c.camPos.y,
                      c.camPos.z + posStep * m.sinf (m.M_PI / 2 + c.rotY)⟩ }

/-- Method `moveBackward`. -/
def moveBackward (m : Libm α) (c : CameraTransform α) : CameraTransform α :=
  { c with camPos := ⟨c.camPos.x - posStep * m.cosf (m.M_PI / 2 + c.rotY), c.camPos.y,
                      c.camPos.z - posStep * m.sinf (m.M_PI / 2 + c.rotY)⟩ }

/-- Method `moveLeft`. -/
def moveLeft (m : Libm α) (c : CameraTransform α) : CameraTransform α :=
  { c with camPos := ⟨c.camPos.x + posStep * m.cosf (m.M_PI + c.rotY), c.camPos.y,
                      c.camPos.z + posStep * m.sinf (m.M_PI + c.rotY)⟩ }

/-- Method `moveRight`. -/
def moveRight (m : Libm α) (c : CameraTransform α) : CameraTransform α :=
  { c with camPos := ⟨c.camPos.x - posStep * m.cosf (m.M_PI + c.rotY), c.camPos.y,
                      c.camPos.z - posStep * m.sinf (m.M_PI + c.rotY)⟩ }

/-- Method `moveUp`. -/
def moveUp (c : CameraTransform α) : CameraTransform α :=
  { c with camPos := ⟨c.camPos.x, c.camPos.y + posStep, c.camPos.z⟩ }

/-- Method `moveDown`. -/
def moveDown (c : CameraTransform α) : CameraTransform α :=
  { c with camPos := ⟨c.camPos.x, c.camPos.y - posStep, c.camPos.z⟩ }

/-- Method `rotateUp`. -/
def rotateUp (m : Libm α) (c : CameraTransform α) : CameraTransform α :=
  let rotX := c.rotX + rotStep m
  { c with rotX := rotX, cosCamRotX := m.cosf rotX, sinCamRotX := m.sinf rotX }

/-- Method `rotateDown`. -/
def rotateDown (m : Libm α) (c : CameraTransform α) : CameraTransform α :=
  let rotX := c.rotX - rotStep m
  { c with rotX := rotX, cosCamRotX := m.cosf rotX, sinCamRotX := m.sinf rotX }

/-- Method `rotateLeft`. -/
def rotateLeft (m : Libm α) (c : CameraTransform α) : CameraTransform α :=
  let rotY := c.rotY + rotStep m
  { c with rotY := rotY, cosCamRotY := m.cosf rotY, sinCamRotY := m.sinf rotY }

/-- Method `rotateRight`. -/
def rotateRight (m : Libm α) (c : CameraTransform α) : CameraTransform α :=
  let rotY := c.rotY - rotStep m
  { c with rotY := rotY, cosCamRotY := m.cosf rotY, sinCamRotY := m.sinf rotY }

/-! ## Colour interpolation -/

/-- Constant `Bounds::bound1`. -/
def Bounds.bound1 : Vec3 α := ⟨250, 0, 0⟩

/-- Constant `Bounds::bound2`. -/
def Bounds.bound2 : Vec3 α := ⟨250, 150, 50⟩

/-- Constant `Bounds::bound3`. -/
def Bounds.bound3 : Vec3 α := ⟨250, 250, 50⟩

/-- Constant `Bounds::bound4`. -/
def Bounds.bound4 : Vec3 α := ⟨50, 250, 50⟩

/-- Constant `Bounds::bound5`. -/
def Bounds.bound5 : Vec3 α := ⟨50, 100, 250⟩

/-- Constant `Bounds::bound6`. -/
def Bounds.bound6 : Vec3 α := ⟨150, 50, 250⟩

/-- The `if` / `else if` chain of `interpolateColor`: the chosen `lowerBound`, the chosen
`upperBound`, and the value of `a` after the branch has shifted it. -/
def selectBounds (a : α) : Vec3 α × Vec3 α × α :=
  if a < 0.2 then
    (Bounds.bound1, Bounds.bound2, a)
  else if a < 0.4 then
    (Bounds.bound2, Bounds.bound3, a - 0.2)
  else if a < 0.6 then
    (Bounds.bound3, Bounds.bound4, a - 0.4)
  else if a < 0.8 then
    (Bounds.bound4, Bounds.bound5, a - 0.6)
  else
    (Bounds.bound5, Bounds.bound6, a - 0.8)

/-- Function `interpolateColor`. -/
def interpolateColor (a : α) : Vec3 α :=
  let lowerBound := (selectBounds a).1
  let upperBound := (selectBounds a).2.1
  let a := (selectBounds a).2.2 / 0.2
  ⟨lowerBound.x * (1 - a) + upperBound.x * a,
   lowerBound.y * (1 - a) + upperBound.y * a,
   lowerBound.z * (1 - a) + upperBound.z * a⟩

/-! ## The colour interpolator as the specification words it -/

/-- The palette: anchor `k` sits at attribute position `0.2 * k`, for `k = 0, …, 5`. -/
def palette : List (Vec3 α) :=
  [Bounds.bound1, Bounds.bound2, Bounds.bound3, Bounds.bound4, Bounds.bound5, Bounds.bound6]

/-- Anchor number `k` of the palette (the last anchor for an index past the end). -/
def anchor (k : Nat) : Vec3 α :=
  (palette.get? k).getD Bounds.bound6

/-- The bracket of `a`: the first `i` among `0, 1, 2, 3` with `a < 0.2 * (i + 1)`, and `4`
when there is none. -/
def bracketIndex (a : α) : Nat :=
  ((List.range 4).find? (fun (i : Nat) => decide (a < 0.2 * ((i : α) + 1)))).getD 4

/-- Channel-wise linear interpolation `lower * (1 - t) + upper * t`. -/
def lerp (lower upper : Vec3 α) (t : α) : Vec3 α :=
  ⟨lower.x * (1 - t) + upper.x * t, lower.y * (1 - t) + upper.y * t,
   lower.z * (1 - t) + upper.z * t⟩

/-- The specification of the colour interpolator: interpolate between anchors `i` and `i + 1`
of the bracket `i` of `a` at the local parameter `t = (a - 0.2 * i) / 0.2`. -/
def interpolateColorSpec (a : α) : Vec3 α :=
  let i := bracketIndex a
  lerp (anchor i) (anchor (i + 1)) ((a - 0.2 * (i : α)) / 0.2)

end Defs

/-! ## Sampling, scene model, drawing and event handling -/

/-- Class `FunctionSpace`: six `int` bounds. -/
structure FunctionSpace where
  minX : Int
  minY : Int
  minZ : Int
  maxX : Int
  maxY : Int
  maxZ : Int
deriving DecidableEq

/-- The argument-free constructor of `FunctionSpace`. -/
def FunctionSpace.defaultCtor : FunctionSpace :=
  ⟨-10, -20, -10, 10, 20, 10⟩

/-- What the drawing backend is asked to do: the calls `SDL_SetRenderDrawColor`,
`SDL_RenderClear`, `SDL_RenderDrawPoint` and `SDL_RenderPresent` with the integer arguments
they receive. -/
inductive DrawCall where
  | SetRenderDrawColor (r g b a : Int)
  | RenderClear
  | RenderDrawPoint (x y : Int)
  | RenderPresent
deriving DecidableEq

/-- The member `type` of an `SDL_Event`, as far as the event loop tells types apart. -/
inductive EventType where
  | SDL_QUIT
  | SDL_KEYDOWN
  | SDL_KEYUP
  | otherType
deriving DecidableEq

/-- The value read from `e.key.keysym.sym`: one of the eight key codes the `switch` has a
`case` for, or any other value. -/
inductive Keycode where
  | SDLK_UP
  | SDLK_DOWN
  | SDLK_LEFT
  | SDLK_RIGHT
  | SDLK_a
  | SDLK_d
  | SDLK_w
  | SDLK_s
  | otherKey
deriving DecidableEq

/-- An `SDL_Event` as the event loop reads it: its `type` and its `key.keysym.sym`. -/
structure Event where
  type : EventType
  sym : Keycode
deriving DecidableEq

/-- The ten mutation methods of `CameraTransform`, by name. -/
inductive Mutation where
  | moveForward
  | moveBackward
  | moveLeft
  | moveRight
  | moveUp
  | moveDown
  | rotateUp
  | rotateDown
  | rotateLeft
  | rotateRight
deriving DecidableEq

/-- Class `Modeler`. -/
structure Modeler (α : Type) where
  solutions : List (Vec4 α)
  camTransform : CameraTransform α
  bounds : FunctionSpace

/-- Class `Manager`: the modeler and the flag `running`, together with the frames drawn so
far (the draw calls of each `redraw`, oldest first) in place of the window and renderer. -/
structure Manager (α : Type) where
  modeler : Modeler α
  running : Bool
  frames : List (List DrawCall)

section Scene

variable {α : Type} [LinearOrderedField α]

/-- Method `Function::color`. The difference `maxY - minY` is formed on `int`, where it
wraps around when it leaves the range, and then converted. -/
def color (bounds : FunctionSpace) (y : α) : α :=
  (y - (bounds.minY : α)) / ((wrapInt32 (bounds.maxY - bounds.minY) : Int) : α)

/-- A loop `for (float x = start; x <= hi; x += 0.05) body`, run from the current value `x`
of the loop variable on the state `s`. -/
def forLoop [FloorRing α] {σ : Type} (hi : α) (body : α → σ → σ) (x : α) (s : σ) : σ :=
  if x ≤ hi then forLoop hi body (x + 0.05) (body x s) else s
termination_by Int.toNat (Int.floor ((hi - x) * 20) + 1)
decreasing_by
  rename_i h
  have e : (hi - (x + 0.05)) * 20 = (hi - x) * 20 - 1 := by
    norm_num
    ring
  have h0 : 0 ≤ Int.floor ((hi - x) * 20) :=
    Int.floor_nonneg.2 (mul_nonneg (sub_nonneg.2 h) (by norm_num))
  rw [e, Int.floor_sub_one]
  omega

/-- The body of the inner loop of `generateSolutionSpace`. -/
def sampleStep (evaluate : α → α → α) (bounds : FunctionSpace) (x z : α)
    (solutions : List (Vec4 α)) : List (Vec4 α) :=
  let y := evaluate x z
  if y ≥ (bounds.minY : α) ∧ y ≤ (bounds.maxY : α) then
    solutions ++ [⟨x, y, z, color bounds y⟩]
  else
    solutions

/-- Method `Function::generateSolutionSpace`, for the function object `evaluate`. -/
def generateSolutionSpace [FloorRing α] (evaluate : α → α → α) (bounds : FunctionSpace) :
    List (Vec4 α) :=
  forLoop (bounds.maxX : α)
    (fun x solutions =>
      forLoop (bounds.maxZ : α) (sampleStep evaluate bounds x) (bounds.minZ : α) solutions)
    (bounds.minX : α) []

/-- The two-argument constructor of `Modeler`. -/
def Modeler.ctor [FloorRing α] (m : Libm α) (bounds : FunctionSpace)
    (evaluate : α → α → α) : Modeler α where
  solutions := generateSolutionSpace evaluate bounds
  camTransform := CameraTransform.defaultCtor m
  bounds := bounds

/-- Method `Modeler::getSolutionsInRenderSpace`. -/
def getSolutionsInRenderSpace (md : Modeler α) : List (Vec4 α) :=
  transformSpace md.camTransform md.solutions

/-- Conversion of a `float` argument to the `Uint8` parameter of `SDL_SetRenderDrawColor`:
truncation towards zero, reduced modulo 256. -/
def floatToUint8 [FloorRing α] (f : α) : Int :=
  floatToInt f % 256

/-- One iteration of the range-for loop of `Manager::redraw`: the two calls it issues,
appended to the calls issued so far. The `float` arguments are converted to the integer
parameter types of the callee. -/
def redrawStep [FloorRing α] (calls : List DrawCall) (v : Vec4 α) : List DrawCall :=
  let color := interpolateColor v.a
  calls ++ [DrawCall.SetRenderDrawColor (floatToUint8 color.x) (floatToUint8 color.y)
              (floatToUint8 color.z) 255,
            DrawCall.RenderDrawPoint (floatToInt v.x) (floatToInt v.y)]

/-- Method `Manager::redraw`, as the list of calls it issues for the modeler `md`. -/
def redraw [FloorRing α] (md : Modeler α) : List DrawCall :=
  let calls := [DrawCall.SetRenderDrawColor 0 0 0 255, DrawCall.RenderClear]
  let calls := (getSolutionsInRenderSpace md).foldl redrawStep calls
  calls ++ [DrawCall.RenderPresent]

/-- The effect of `this->redraw()` on the manager: one more frame. -/
def Manager.redraw [FloorRing α] (mg : Manager α) : Manager α :=
  { mg with frames := mg.frames ++ [Renderer.redraw mg.modeler] }

/-- The effect of `modeler.camTransform.f()` on the manager, for a mutation method `f`. -/
def Manager.mutate (f : CameraTransform α → CameraTransform α) (mg : Manager α) : Manager α :=
  { mg with modeler := { mg.modeler with camTransform := f mg.modeler.camTransform } }

/-- The body of the inner `while` loop of `Manager::runUntilQuit`: what one polled event
does to the manager. -/
def handleEvent [FloorRing α] (m : Libm α) (mg : Manager α) (e : Event) : Manager α :=
  if e.type = EventType.SDL_QUIT then
    { mg with running := false }
  else
    match e.sym with
    | Keycode.SDLK_UP => (mg.mutate (moveForward m)).redraw
    | Keycode.SDLK_DOWN => (mg.mutate (moveBackward m)).redraw
    | Keycode.SDLK_LEFT => (mg.mutate (moveLeft m)).redraw
    | Keycode.SDLK_RIGHT => (mg.mutate (moveRight m)).redraw
    | Keycode.SDLK_a => (mg.mutate (rotateLeft m)).redraw
    | Keycode.SDLK_d => (mg.mutate (rotateRight m)).redraw
    | Keycode.SDLK_w => (mg.mutate (rotateUp m)).redraw
    | Keycode.SDLK_s => (mg.mutate (rotateDown m)).redraw
    | Keycode.otherKey => mg

/-- The method of `CameraTransform` that a `Mutation` names. -/
def applyMutation (m : Libm α) (op : Mutation) (c : CameraTransform α) : CameraTransform α :=
  match op with
  | Mutation.moveForward => moveForward m c
  | Mutation.moveBackward => moveBackward m c
  | Mutation.moveLeft => moveLeft m c
  | Mutation.moveRight => moveRight m c
  | Mutation.moveUp => moveUp c
  | Mutation.moveDown => moveDown c
  | Mutation.rotateUp => rotateUp m c
  | Mutation.rotateDown => rotateDown m c
  | Mutation.rotateLeft => rotateLeft m c
  | Mutation.rotateRight => rotateRight m c

/-- A finite sequence of mutation calls, first call first. -/
def runMutations (m : Libm α) (ops : List Mutation) (c : CameraTransform α) :
    CameraTransform α :=
  ops.foldl (fun k op => applyMutation m op k) c

/-! ## The key map as the specification words it -/

/-- The key map as the specification words it: Up -> moveForward, Down -> moveBackward,
Left -> moveLeft, Right -> moveRight, a -> rotateLeft, d -> rotateRight, w -> rotateUp,
s -> rotateDown; no method for any other key. -/
def keyBinding (m : Libm α) :
    Keycode → Option (CameraTransform α → CameraTransform α)
  | Keycode.SDLK_UP => some (moveForward m)
  | Keycode.SDLK_DOWN => some (moveBackward m)
  | Keycode.SDLK_LEFT => some (moveLeft m)
  | Keycode.SDLK_RIGHT => some (moveRight m)
  | Keycode.SDLK_a => some (rotateLeft m)
  | Keycode.SDLK_d => some (rotateRight m)
  | Keycode.SDLK_w => some (rotateUp m)
  | Keycode.SDLK_s => some (rotateDown m)
  | Keycode.otherKey => none

/-! ## Vocabulary of the statements -/

/-- The change of camera position from the state `c` to the state `k`. -/
def displacement (c k : CameraTransform α) : Vec3 α :=
  ⟨k.camPos.x - c.camPos.x, k.camPos.y - c.camPos.y, k.camPos.z - c.camPos.z⟩

/-- The dot product of two vectors. -/
def dot (u v : Vec3 α) : α :=
  u.x * v.x + u.y * v.y + u.z * v.z

/-- The pixels a list of draw calls plots, in order. -/
def plottedPixels : List DrawCall → List (Int × Int)
  | [] => []
  | DrawCall.RenderDrawPoint x y :: cs => (x, y) :: plottedPixels cs
  | _ :: cs => plottedPixels cs

end Scene

/-! ## Concrete data used in evaluations -/

/-- A camera at the origin looking down the positive z axis, lens factor `1`, 400 x 400. -/
def axisCamera : CameraTransform ℚ :=
  ⟨⟨0, 0, 0⟩, 0, 1, 0, 0, 1, 0, 0, 1, 400, 400⟩

/-- Three points whose depths under `axisCamera` are 5, 1 and 3, and one behind the camera. -/
def samplePoints : List (Vec4 ℚ) :=
  [⟨0, 0, 5, 1⟩, ⟨1, 0, 1, 0⟩, ⟨0, 0, -2, 0⟩, ⟨0, 3, 3, 1/2⟩]

/-- A camera at `(1, 2, 3)` whose cached yaw pair is `(4/5, 3/5)` and cached pitch pair is
`(3/5, 4/5)`, lens factor `2`, viewport 400 x 300. -/
def tiltedCamera : CameraTransform ℚ :=
  ⟨⟨1, 2, 3⟩, 0, 3/5, 4/5, 0, 4/5, 3/5, 0, 2, 400, 300⟩

/-- A scene with the camera on the axis and the single sample `(1, 0, 500, 0)`, whose screen
position is `(200.8, 200)`. -/
def offGridScene : Modeler ℚ :=
  ⟨[⟨1, 0, 500, 0⟩], axisCamera, FunctionSpace.defaultCtor⟩

set_option linter.unusedSectionVars false

section Lemmas

variable {α : Type} [LinearOrderedField α]

theorem floatToInt_of_fits [FloorRing α] (f : α) (h0 : INT_MIN ≤ truncate f)
    (h1 : truncate f ≤ INT_MAX) : floatToInt f = truncate f := by
  unfold floatToInt
  rw [if_pos ⟨h0, h1⟩]

/-- A value between `0` and `INT_MAX` is converted to its floor. -/
theorem floatToInt_of_nonneg [FloorRing α] (f : α) (h0 : 0 ≤ f) (h1 : f ≤ 2147483647) :
    floatToInt f = Int.floor f := by
  have ht : truncate f = Int.floor f := by simp [truncate, h0]
  have ha : 0 ≤ Int.floor f := Int.floor_nonneg.2 h0
  have hb : Int.floor f ≤ 2147483647 := by
    have : ((Int.floor f : Int) : α) ≤ ((2147483647 : Int) : α) := by
      push_cast
      exact le_trans (Int.floor_le f) h1
    exact_mod_cast this
  rw [floatToInt_of_fits f (by rw [ht]; unfold INT_MIN; omega)
    (by rw [ht]; unfold INT_MAX; omega), ht]

theorem floatToInt_400 : floatToInt (400 : ℝ) = 400 := by
  rw [floatToInt_of_nonneg _ (by norm_num) (by norm_num)]
  simp

theorem sortInsert_perm (comp : Vec4 α → Vec4 α → Bool) (v : Vec4 α) (l : List (Vec4 α)) :
    List.Perm (sortInsert comp v l) (v :: l) := by
  induction l with
  | nil => simp [sortInsert]
  | cons w ws ih =>
    unfold sortInsert
    split
    · exact List.Perm.refl _
    · exact (List.Perm.cons w ih).trans (List.Perm.swap v w ws)

theorem transformSpaceStep_foldl (c : CameraTransform α) (l acc : List (Vec4 α)) :
    l.foldl (transformSpaceStep c) acc
      = acc ++ (l.map (transformVec c)).filter (fun w => decide (0 < w.z)) := by
  induction l generalizing acc with
  | nil => simp
  | cons v vs ih =>
    rw [List.foldl_cons, ih]
    by_cases h : 0 < (transformVec c v).z
    · simp [transformSpaceStep, h, List.filter_cons]
    · simp [transformSpaceStep, h, List.filter_cons]

theorem stdSort_perm (comp : Vec4 α → Vec4 α → Bool) (l : List (Vec4 α)) :
    List.Perm (stdSort comp l) l := by
  induction l with
  | nil => simp [stdSort]
  | cons v vs ih =>
    unfold stdSort
    exact (sortInsert_perm comp v _).trans (List.Perm.cons v ih)

theorem sortInsert_depth_pairwise (v : Vec4 α) (l : List (Vec4 α))
    (h : l.Pairwise (fun a b => a.z ≥ b.z)) :
    (sortInsert depthComp v l).Pairwise (fun a b => a.z ≥ b.z) := by
  induction l with
  | nil => simp [sortInsert]
  | cons w ws ih =>
    rw [List.pairwise_cons] at h
    unfold sortInsert
    by_cases hc : depthComp v w = true
    · rw [if_pos hc]
      have hvw : w.z < v.z := by simpa [depthComp] using hc
      refine List.pairwise_cons.2 ⟨?_, List.pairwise_cons.2 h⟩
      intro b hb
      rcases List.mem_cons.1 hb with rfl | hb
      · exact le_of_lt hvw
      · exact le_trans (h.1 b hb) (le_of_lt hvw)
    · rw [if_neg hc]
      have hvw : v.z ≤ w.z := by simpa [depthComp] using hc
      refine List.pairwise_cons.2 ⟨?_, ih h.2⟩
      intro b hb
      have hb2 : b ∈ v :: ws := (sortInsert_perm depthComp v ws).subset hb
      rcases List.mem_cons.1 hb2 with rfl | hb2
      · exact hvw
      · exact h.1 b hb2

theorem stdSort_depth_pairwise (l : List (Vec4 α)) :
    (stdSort depthComp l).Pairwise (fun a b => a.z ≥ b.z) := by
  induction l with
  | nil => simp [stdSort]
  | cons v vs ih =>
    unfold stdSort
    exact sortInsert_depth_pairwise v _ ih

theorem bracketIndex_eq (a : α) :
    bracketIndex a
      = if a < 0.2 then 0 else if a < 0.4 then 1 else if a < 0.6 then 2
        else if a < 0.8 then 3 else 4 := by
  have hr : List.range 4 = [0, 1, 2, 3] := by decide
  have e0 : (0.2 : α) * (((0 : ℕ) : α) + 1) = 0.2 := by norm_num
  have e1 : (0.2 : α) * (((1 : ℕ) : α) + 1) = 0.4 := by norm_num
  have e2 : (0.2 : α) * (((2 : ℕ) : α) + 1) = 0.6 := by norm_num
  have e3 : (0.2 : α) * (((3 : ℕ) : α) + 1) = 0.8 := by norm_num
  unfold bracketIndex
  rw [hr]
  simp only [List.find?_cons, List.find?_nil, e0, e1, e2, e3]
  split_ifs <;> simp [*]

/-- Each bracket of `interpolateColor` written out as an affine function of `a`. -/
theorem interpolateColor_closed (a : α) :
    interpolateColor a
      = if a < 1 / 5 then ⟨250, 750 * a, 250 * a⟩
        else if a < 2 / 5 then ⟨250, 500 * a + 50, 50⟩
        else if a < 3 / 5 then ⟨650 - 1000 * a, 250, 50⟩
        else if a < 4 / 5 then ⟨50, 700 - 750 * a, 1000 * a - 550⟩
        else ⟨500 * a - 350, 300 - 250 * a, 250⟩ := by
  have e2 : (0.2 : α) = 1 / 5 := by norm_num
  have e4 : (0.4 : α) = 2 / 5 := by norm_num
  have e6 : (0.6 : α) = 3 / 5 := by norm_num
  have e8 : (0.8 : α) = 4 / 5 := by norm_num
  unfold interpolateColor selectBounds
  rw [e2, e4, e6, e8]
  split_ifs <;>
    simp only [Bounds.bound1, Bounds.bound2, Bounds.bound3, Bounds.bound4, Bounds.bound5,
      Bounds.bound6, Vec3.mk.injEq] <;>
    refine ⟨?_, ?_, ?_⟩ <;> ring

set_option maxHeartbeats 4000000

theorem interpolateColor_x_slope (a b : α) (hab : a ≤ b) :
    |(interpolateColor a).x - (interpolateColor b).x| ≤ 1000 * (b - a) := by
  rw [abs_le, interpolateColor_closed a, interpolateColor_closed b]
  split_ifs <;> constructor <;> dsimp only <;> linarith

theorem interpolateColor_y_slope (a b : α) (hab : a ≤ b) :
    |(interpolateColor a).y - (interpolateColor b).y| ≤ 1000 * (b - a) := by
  rw [abs_le, interpolateColor_closed a, interpolateColor_closed b]
  split_ifs <;> constructor <;> dsimp only <;> linarith

theorem interpolateColor_z_slope (a b : α) (hab : a ≤ b) :
    |(interpolateColor a).z - (interpolateColor b).z| ≤ 1000 * (b - a) := by
  rw [abs_le, interpolateColor_closed a, interpolateColor_closed b]
  split_ifs <;> constructor <;> dsimp only <;> linarith

set_option maxHeartbeats 200000

/-- Every channel of `interpolateColor` changes by at most `1000 * |a - b|` between `a`
and `b`. -/
theorem interpolateColor_lipschitz (a b : α) :
    |(interpolateColor a).x - (interpolateColor b).x| ≤ 1000 * |a - b|
      ∧ |(interpolateColor a).y - (interpolateColor b).y| ≤ 1000 * |a - b|
      ∧ |(interpolateColor a).z - (interpolateColor b).z| ≤ 1000 * |a - b| := by
  rcases le_total a b with hab | hba
  · have e : |a - b| = b - a := by rw [abs_sub_comm, abs_of_nonneg (sub_nonneg.2 hab)]
    rw [e]
    exact ⟨interpolateColor_x_slope a b hab, interpolateColor_y_slope a b hab,
      interpolateColor_z_slope a b hab⟩
  · have e : |a - b| = a - b := abs_of_nonneg (sub_nonneg.2 hba)
    rw [e, abs_sub_comm (interpolateColor a).x, abs_sub_comm (interpolateColor a).y,
      abs_sub_comm (interpolateColor a).z]
    exact ⟨interpolateColor_x_slope b a hba, interpolateColor_y_slope b a hba,
      interpolateColor_z_slope b a hba⟩

theorem continuous_of_slope (f : ℝ → ℝ) (h : ∀ a b : ℝ, |f a - f b| ≤ 1000 * |a - b|) :
    Continuous f := by
  have hl : LipschitzWith 1000 f := by
    apply LipschitzWith.of_dist_le_mul
    intro a b
    rw [Real.dist_eq, Real.dist_eq]
    simpa using h a b
  exact hl.continuous

theorem transformSpace_eq (c : CameraTransform α) (solutions : List (Vec4 α)) :
    transformSpace c solutions
      = stdSort depthComp
          ((solutions.map (transformVec c)).filter (fun w => decide (0 < w.z))) := by
  unfold transformSpace
  rw [transformSpaceStep_foldl]
  simp

theorem transformSpace_perm_filter (c : CameraTransform α) (solutions : List (Vec4 α)) :
    List.Perm (transformSpace c solutions)
      ((solutions.map (transformVec c)).filter (fun w => decide (0 < w.z))) := by
  rw [transformSpace_eq]
  exact stdSort_perm _ _

theorem transformVec_mem_transformSpace (c : CameraTransform α) (solutions : List (Vec4 α))
    (v : Vec4 α) (hv : v ∈ solutions) (hz : 0 < (transformVec c v).z) :
    transformVec c v ∈ transformSpace c solutions := by
  apply (transformSpace_perm_filter c solutions).symm.subset
  exact List.mem_filter.2 ⟨List.mem_map.2 ⟨v, hv, rfl⟩, by simpa using hz⟩

end Lemmas

/-! ## Batch transform: visible set and depth order -/

section Batch

variable {α : Type} [LinearOrderedField α]

/-- C1: for every camera state and every input list, `transformSpace` returns a permutation
of the list obtained by applying `transformVec` to every input point and keeping exactly the
results whose depth `z` is positive. Hence every output point has positive depth, every input
point whose image has positive depth has its image in the output, and every output point is
the image of an input point. -/
theorem transformSpace_perm_visible (c : CameraTransform α) (solutions : List (Vec4 α)) :
    List.Perm (transformSpace c solutions)
        ((solutions.map (transformVec c)).filter (fun w => decide (0 < w.z)))
      ∧ (∀ w ∈ transformSpace c solutions, 0 < w.z)
      ∧ (∀ v ∈ solutions, 0 < (transformVec c v).z →
          transformVec c v ∈ transformSpace c solutions)
      ∧ (∀ w ∈ transformSpace c solutions, ∃ v ∈ solutions, transformVec c v = w) := by
  have hp := transformSpace_perm_filter c solutions
  refine ⟨hp, ?_, ?_, ?_⟩
  · intro w hw
    have hw2 := hp.subset hw
    simpa using (List.mem_filter.1 hw2).2
  · intro v hv hz
    exact transformVec_mem_transformSpace c solutions v hv hz
  · intro w hw
    have hw2 := hp.subset hw
    exact List.mem_map.1 (List.mem_filter.1 hw2).1

/-- C1 at a concrete input: the image of the sample point at depth 5 is in the output, and
the output has exactly the three visible images. -/
theorem transformSpace_perm_visible_witness :
    transformVec axisCamera ⟨0, 0, 5, 1⟩ ∈ transformSpace axisCamera samplePoints
      ∧ (transformSpace axisCamera samplePoints).length = 3 :=
  ⟨(transformSpace_perm_visible axisCamera samplePoints).2.2.1 ⟨0, 0, 5, 1⟩
      (by simp [samplePoints])
      (by norm_num [transformVec, transformVecTraced, cameraSpace, axisCamera]),
    by
      rw [(transformSpace_perm_visible axisCamera samplePoints).1.length_eq]
      norm_num [samplePoints, transformVec, transformVecTraced, cameraSpace, axisCamera,
        List.filter_cons]⟩

/-- C2: for every camera state and every input list, the list returned by `transformSpace`
is sorted by depth, non-increasing (farthest first): each element has depth at least that of
every later element, so `out[i].z ≥ out[j].z` for all positions `i < j`. Three points of
depths 5, 1, 3 (and one behind the camera) come out with depths `[5, 3, 1]`. -/
theorem transformSpace_sorted (c : CameraTransform α) (solutions : List (Vec4 α)) :
    (transformSpace c solutions).Pairwise (fun a b => a.z ≥ b.z)
      ∧ (∀ (i j : Fin (transformSpace c solutions).length), i < j →
          ((transformSpace c solutions).get i).z ≥ ((transformSpace c solutions).get j).z)
      ∧ (transformSpace axisCamera samplePoints).map (fun v => v.z) = [5, 3, 1] := by
  have hs : (transformSpace c solutions).Pairwise (fun a b => a.z ≥ b.z) := by
    rw [transformSpace_eq]
    exact stdSort_depth_pairwise _
  refine ⟨hs, ?_, ?_⟩
  · intro i j hij
    exact List.pairwise_iff_get.1 hs i j hij
  · norm_num [transformSpace, samplePoints, axisCamera, transformSpaceStep, transformVec,
      transformVecTraced, cameraSpace, stdSort, sortInsert, depthComp]

/-- C2 at a concrete input: the depths of the output for the sample points are pairwise
non-increasing. -/
theorem transformSpace_sorted_witness :
    ((transformSpace axisCamera samplePoints).map (fun v => v.z)).Pairwise (fun a b => a ≥ b) :=
  List.pairwise_map.2 (transformSpace_sorted axisCamera samplePoints).1

end Batch

/-! ## Point transform -/

section Point

variable {α : Type} [LinearOrderedField α]

/-- C3: for every camera state and every point `v = (x, y, z, a)`, with
`(dx, dy, dz) = (x, y, z) - camPos`, `x1 = dx*cosYaw + dz*sinYaw`, `z1 = dz*cosYaw - dx*sinYaw`,
`y2 = dy*cosPitch - z1*sinPitch`, `z2 = dy*sinPitch + z1*cosPitch`: if `z2 > 0` then
`transformVec v = (width/2 + (x1/(z2*invTanHalfFov))*width,
height/2 - (y2/(z2*invTanHalfFov))*width, z2, a)`. -/
theorem transformVec_formula (c : CameraTransform α) (v : Vec4 α)
    (dx dy dz x1 z1 y2 z2 : α)
    (hdx : dx = v.x - c.camPos.x) (hdy : dy = v.y - c.camPos.y) (hdz : dz = v.z - c.camPos.z)
    (hx1 : x1 = dx * c.cosCamRotY + dz * c.sinCamRotY)
    (hz1 : z1 = dz * c.cosCamRotY - dx * c.sinCamRotY)
    (hy2 : y2 = dy * c.cosCamRotX - z1 * c.sinCamRotX)
    (hz2 : z2 = dy * c.sinCamRotX + z1 * c.cosCamRotX)
    (hpos : 0 < z2) :
    transformVec c v
      = ⟨(c.width : α) / 2 + (x1 / (z2 * c.inverseTanCamFovOver2)) * (c.width : α),
         (c.height : α) / 2 - (y2 / (z2 * c.inverseTanCamFovOver2)) * (c.width : α),
         z2, v.a⟩ := by
  subst hdx hdy hdz hx1 hz1 hy2 hz2
  have hz : ¬ (cameraSpace c v).z ≤ 0 := not_le.2 hpos
  unfold transformVec transformVecTraced
  simp only [hz, if_false]
  simp only [cameraSpace, Vec4.mk.injEq]
  refine ⟨?_, ?_, trivial, trivial⟩ <;> norm_num <;> ring

/-- C3 at a concrete input: the tilted camera maps `(5, 7, 6, 9)` to `(450, 0, 4, 9)`. -/
theorem transformVec_formula_witness :
    transformVec tiltedCamera ⟨5, 7, 6, 9⟩ = ⟨450, 0, 4, 9⟩ :=
  (transformVec_formula tiltedCamera ⟨5, 7, 6, 9⟩ 4 5 3 5 0 3 4
    (by norm_num [tiltedCamera]) (by norm_num [tiltedCamera]) (by norm_num [tiltedCamera])
    (by norm_num [tiltedCamera]) (by norm_num [tiltedCamera]) (by norm_num [tiltedCamera])
    (by norm_num [tiltedCamera]) (by norm_num)).trans (by norm_num [tiltedCamera])

/-- C4: near-plane rejection. For every camera state and every point whose camera-space
depth (after translation, yaw and pitch rotation) is `≤ 0`, `transformVec` returns exactly
the sentinel `(0, 0, -1, 0)` and executes no division; whatever the point, every division
that `transformVec` executes has a positive camera-space depth in its divisor; and for every
camera state a point located at the camera position transforms to the sentinel. -/
theorem transformVec_near_plane (c : CameraTransform α) (v : Vec4 α)
    (hz : (v.y - c.camPos.y) * c.sinCamRotX
        + ((v.z - c.camPos.z) * c.cosCamRotY - (v.x - c.camPos.x) * c.sinCamRotY) * c.cosCamRotX
        ≤ 0) :
    transformVec c v = ⟨0, 0, -1, 0⟩
      ∧ (transformVecTraced c v).2 = []
      ∧ (∀ (k : CameraTransform α) (u : Vec4 α), ∀ d ∈ (transformVecTraced k u).2, 0 < d)
      ∧ (∀ (k : CameraTransform α) (a : α),
          transformVec k ⟨k.camPos.x, k.camPos.y, k.camPos.z, a⟩ = ⟨0, 0, -1, 0⟩) := by
  have hc : (cameraSpace c v).z ≤ 0 := by simpa [cameraSpace] using hz
  refine ⟨?_, ?_, ?_, ?_⟩
  · unfold transformVec transformVecTraced
    simp only [hc, if_true]
  · unfold transformVecTraced
    simp only [hc, if_true]
  · intro k u d hd
    unfold transformVecTraced at hd
    by_cases hk : (cameraSpace k u).z ≤ 0
    · simp only [hk, if_true] at hd
      exact absurd hd (List.not_mem_nil d)
    · simp only [hk, if_false] at hd
      have hd2 : d = (cameraSpace k u).z := by simpa using hd
      rw [hd2]
      exact not_le.1 hk
  · intro k a
    have hk : (cameraSpace k ⟨k.camPos.x, k.camPos.y, k.camPos.z, a⟩).z ≤ 0 := by
      simp [cameraSpace]
    unfold transformVec transformVecTraced
    simp only [hk, if_true]

/-- C4 at a concrete input: the tilted camera rejects the point `(1, 2, -10, 9)`, whose
camera-space depth is `-39/5`. -/
theorem transformVec_near_plane_witness :
    transformVec tiltedCamera ⟨1, 2, -10, 9⟩ = ⟨0, 0, -1, 0⟩ :=
  (transformVec_near_plane tiltedCamera ⟨1, 2, -10, 9⟩ (by norm_num [tiltedCamera])).1

/-- C5: end to end with the default camera (position `(0, 30, -60)`, pitch -30 degrees,
yaw 0, field of view 90 degrees so that the lens factor is 1, viewport 400 x 400), over the
reals with the real cosine, sine, tangent and pi. The world point `(0, 30, 60, a)` has the
positive camera-space depth `60 * sqrt 3`; `transformVec` gives it `screenX = 200`, the
horizontal screen centre, and `screenY = 200 - 400 / sqrt 3`; and `transformSpace` applied
to a list containing the point returns a list containing its transformed image. -/
theorem default_camera_end_to_end (c : CameraTransform ℝ)
    (hc : c = CameraTransform.defaultCtor ⟨Real.cos, Real.sin, Real.tan, Real.pi⟩)
    (a : ℝ) (solutions : List (Vec4 ℝ)) (hmem : (⟨0, 30, 60, a⟩ : Vec4 ℝ) ∈ solutions) :
    c.camPos = ⟨0, 30, -60⟩ ∧ c.rotX = -30 * Real.pi / 180 ∧ c.rotY = 0
      ∧ c.inverseTanCamFovOver2 = 1 ∧ c.width = 400 ∧ c.height = 400
      ∧ (cameraSpace c ⟨0, 30, 60, a⟩).z = 60 * Real.sqrt 3
      ∧ 0 < (cameraSpace c ⟨0, 30, 60, a⟩).z
      ∧ transformVec c ⟨0, 30, 60, a⟩
          = ⟨200, 200 - 400 / Real.sqrt 3, 60 * Real.sqrt 3, a⟩
      ∧ transformVec c ⟨0, 30, 60, a⟩ ∈ transformSpace c solutions := by
  have hcos : Real.cos (-30 * Real.pi / 180) = Real.sqrt 3 / 2 := by
    rw [show (-30 * Real.pi / 180 : ℝ) = -(Real.pi / 6) by ring, Real.cos_neg,
      Real.cos_pi_div_six]
  have hsin : Real.sin (-30 * Real.pi / 180) = -(1 / 2) := by
    rw [show (-30 * Real.pi / 180 : ℝ) = -(Real.pi / 6) by ring, Real.sin_neg,
      Real.sin_pi_div_six]
  have htan : Real.tan (Real.pi / 2 / 2) = 1 := by
    rw [show (Real.pi / 2 / 2 : ℝ) = Real.pi / 4 by ring, Real.tan_pi_div_four]
  have hw : floatToInt (400 : ℝ) = 400 := floatToInt_400
  have h3 : 0 < Real.sqrt 3 := Real.sqrt_pos.2 (by norm_num)
  have hdepth : (cameraSpace c ⟨0, 30, 60, a⟩).z = 60 * Real.sqrt 3 := by
    subst hc
    simp only [cameraSpace, CameraTransform.defaultCtor, CameraTransform.ctor, hcos, hsin,
      Real.cos_zero, Real.sin_zero]
    ring
  have hpos : 0 < (cameraSpace c ⟨0, 30, 60, a⟩).z := by
    rw [hdepth]
    positivity
  have himg : transformVec c ⟨0, 30, 60, a⟩
      = ⟨200, 200 - 400 / Real.sqrt 3, 60 * Real.sqrt 3, a⟩ := by
    have hnot : ¬ (60 * Real.sqrt 3 ≤ 0) := not_le.2 (by positivity)
    unfold transformVec transformVecTraced
    simp only [hdepth, hnot, if_false]
    subst hc
    simp only [cameraSpace, CameraTransform.defaultCtor, CameraTransform.ctor, hcos, hsin,
      htan, hw, Real.cos_zero, Real.sin_zero, Vec4.mk.injEq]
    refine ⟨?_, ?_⟩
    · norm_num
    · field_simp
      ring
  refine ⟨?_, ?_, ?_, ?_, ?_, ?_, hdepth, hpos, himg, ?_⟩
  · subst hc; simp [CameraTransform.defaultCtor, CameraTransform.ctor]
  · subst hc; simp [CameraTransform.defaultCtor, CameraTransform.ctor]
  · subst hc; simp [CameraTransform.defaultCtor, CameraTransform.ctor]
  · subst hc; simp [CameraTransform.defaultCtor, CameraTransform.ctor, htan]
  · subst hc; simp [CameraTransform.defaultCtor, CameraTransform.ctor, hw]
  · subst hc; simp [CameraTransform.defaultCtor, CameraTransform.ctor, hw]
  · apply transformVec_mem_transformSpace c solutions _ hmem
    rw [himg]
    positivity

/-- C5 at a concrete input: attribute `1/2` and the one-point list. -/
theorem default_camera_end_to_end_witness :
    transformVec (CameraTransform.defaultCtor ⟨Real.cos, Real.sin, Real.tan, Real.pi⟩)
        ⟨0, 30, 60, 1 / 2⟩
      ∈ transformSpace (CameraTransform.defaultCtor ⟨Real.cos, Real.sin, Real.tan, Real.pi⟩)
          [⟨0, 30, 60, 1 / 2⟩] :=
  (default_camera_end_to_end _ rfl (1 / 2) [⟨0, 30, 60, 1 / 2⟩]
    (List.mem_singleton.2 rfl)).2.2.2.2.2.2.2.2.2

end Point

/-! ## Colour interpolation -/

section Colour

variable {α : Type} [LinearOrderedField α]

/-- C7: `interpolateColor` has no seam at a bracket boundary. Over the reals, for each
threshold `t` among `0.2, 0.4, 0.6, 0.8`, the interpolation formula of the bracket below `t`
evaluated at `t` equals `interpolateColor t` (computed in the bracket above), and each
channel of `interpolateColor a` tends to its value at `t` as `a` approaches `t` from below;
every channel is Lipschitz with constant `1000`, and continuous. -/
theorem interpolateColor_no_seam :
    (lerp Bounds.bound1 Bounds.bound2 (((0.2 : ℝ) - 0) / 0.2) = interpolateColor 0.2
        ∧ lerp Bounds.bound2 Bounds.bound3 (((0.4 : ℝ) - 0.2) / 0.2) = interpolateColor 0.4
        ∧ lerp Bounds.bound3 Bounds.bound4 (((0.6 : ℝ) - 0.4) / 0.2) = interpolateColor 0.6
        ∧ lerp Bounds.bound4 Bounds.bound5 (((0.8 : ℝ) - 0.6) / 0.2) = interpolateColor 0.8)
      ∧ (∀ t : ℝ, t ∈ [0.2, 0.4, 0.6, 0.8] →
          Filter.Tendsto (fun a : ℝ => (interpolateColor a).x) (nhdsWithin t (Set.Iio t))
              (nhds (interpolateColor t).x)
            ∧ Filter.Tendsto (fun a : ℝ => (interpolateColor a).y) (nhdsWithin t (Set.Iio t))
              (nhds (interpolateColor t).y)
            ∧ Filter.Tendsto (fun a : ℝ => (interpolateColor a).z) (nhdsWithin t (Set.Iio t))
              (nhds (interpolateColor t).z))
      ∧ (∀ a b : ℝ,
          |(interpolateColor a).x - (interpolateColor b).x| ≤ 1000 * |a - b|
            ∧ |(interpolateColor a).y - (interpolateColor b).y| ≤ 1000 * |a - b|
            ∧ |(interpolateColor a).z - (interpolateColor b).z| ≤ 1000 * |a - b|)
      ∧ Continuous (fun a : ℝ => (interpolateColor a).x)
      ∧ Continuous (fun a : ℝ => (interpolateColor a).y)
      ∧ Continuous (fun a : ℝ => (interpolateColor a).z) := by
  have hx : Continuous (fun a : ℝ => (interpolateColor a).x) :=
    continuous_of_slope _ (fun a b => (interpolateColor_lipschitz a b).1)
  have hy : Continuous (fun a : ℝ => (interpolateColor a).y) :=
    continuous_of_slope _ (fun a b => (interpolateColor_lipschitz a b).2.1)
  have hz : Continuous (fun a : ℝ => (interpolateColor a).z) :=
    continuous_of_slope _ (fun a b => (interpolateColor_lipschitz a b).2.2)
  refine ⟨⟨?_, ?_, ?_, ?_⟩, ?_, interpolateColor_lipschitz, hx, hy, hz⟩
  · norm_num [lerp, interpolateColor, selectBounds, Bounds.bound1, Bounds.bound2,
      Bounds.bound3]
  · norm_num [lerp, interpolateColor, selectBounds, Bounds.bound2, Bounds.bound3,
      Bounds.bound4]
  · norm_num [lerp, interpolateColor, selectBounds, Bounds.bound3, Bounds.bound4,
      Bounds.bound5]
  · norm_num [lerp, interpolateColor, selectBounds, Bounds.bound4, Bounds.bound5,
      Bounds.bound6]
  · intro t _
    exact ⟨hx.continuousAt.continuousWithinAt, hy.continuousAt.continuousWithinAt,
      hz.continuousAt.continuousWithinAt⟩

/-- C7 at a concrete input: the left limit of the red channel at the threshold `0.6`. -/
theorem interpolateColor_no_seam_witness :
    Filter.Tendsto (fun a : ℝ => (interpolateColor a).x) (nhdsWithin 0.6 (Set.Iio 0.6))
      (nhds (interpolateColor (0.6 : ℝ)).x) :=
  (interpolateColor_no_seam.2.1 0.6 (by simp)).1

/-- C8: for every `a`, with no validation and no clamping, `interpolateColor a` equals
`lower * (1 - t) + upper * t` per channel, where the bracket index `i` in `0..4` is the first
`i` with `a < 0.2 * (i + 1)` (`4` if there is none, so that `a` equal to a threshold falls
into the upper bracket), `lower` and `upper` are the palette anchors `i` and `i + 1`, and
`t = (a - 0.2 * i) / 0.2`. Inputs below `0` are extrapolated along the first bracket, inputs
above `1` along the last; for instance `interpolateColor 1.5` has red channel `400`. -/
theorem interpolateColor_refines (a : α) :
    interpolateColor a = interpolateColorSpec a
      ∧ bracketIndex a ≤ 4
      ∧ (bracketIndex (0.2 : α) = 1 ∧ bracketIndex (0.4 : α) = 2
          ∧ bracketIndex (0.6 : α) = 3 ∧ bracketIndex (0.8 : α) = 4)
      ∧ (a < 0 → interpolateColor a = lerp Bounds.bound1 Bounds.bound2 (a / 0.2))
      ∧ (1 < a → interpolateColor a = lerp Bounds.bound5 Bounds.bound6 ((a - 0.8) / 0.2))
      ∧ (interpolateColor (1.5 : α)).x = 400 := by
  refine ⟨?_, ?_, ⟨?_, ?_, ?_, ?_⟩, ?_, ?_, ?_⟩
  · unfold interpolateColor interpolateColorSpec selectBounds lerp
    rw [bracketIndex_eq]
    split_ifs <;> norm_num [anchor, palette]
  · rw [bracketIndex_eq]
    split_ifs <;> decide
  · rw [bracketIndex_eq]; norm_num
  · rw [bracketIndex_eq]; norm_num
  · rw [bracketIndex_eq]; norm_num
  · rw [bracketIndex_eq]; norm_num
  · intro ha
    have h1 : a < 0.2 := lt_trans ha (by norm_num)
    simp [interpolateColor, selectBounds, lerp, h1]
  · intro ha
    have h1 : ¬ a < 0.2 := not_lt.2 (le_of_lt (lt_trans (by norm_num) ha))
    have h2 : ¬ a < 0.4 := not_lt.2 (le_of_lt (lt_trans (by norm_num) ha))
    have h3 : ¬ a < 0.6 := not_lt.2 (le_of_lt (lt_trans (by norm_num) ha))
    have h4 : ¬ a < 0.8 := not_lt.2 (le_of_lt (lt_trans (by norm_num) ha))
    simp [interpolateColor, selectBounds, lerp, h1, h2, h3, h4]
  · norm_num [interpolateColor, selectBounds, Bounds.bound5, Bounds.bound6]

/-- C8 at a concrete input: over the rationals, `-1/10` is extrapolated along the first
bracket, to the colour `(250, -75, -25)`. -/
theorem interpolateColor_refines_witness :
    interpolateColor (-1 / 10 : ℚ) = ⟨250, -75, -25⟩ :=
  ((interpolateColor_refines (-1 / 10 : ℚ)).2.2.2.1 (by norm_num)).trans
    (by norm_num [lerp, Bounds.bound1, Bounds.bound2])

end Colour

/-! ## Camera mutations -/

section Mutations

variable {α : Type} [LinearOrderedField α]

/-- C9: rotation round trip, for every camera state, over any ordered field (the reals in
particular) and whatever the cosine and sine routines are. `rotateLeft` followed by
`rotateRight`, and `rotateRight` followed by `rotateLeft`, restore `rotY`; `rotateUp`
followed by `rotateDown`, and the reverse, restore `rotX`; after the pair the cached cosine
and sine are the cosine and sine of the restored angle, and every other field of the camera
state is unchanged. -/
theorem rotate_round_trip (m : Libm α) (c : CameraTransform α) :
    rotateRight m (rotateLeft m c)
        = { c with cosCamRotY := m.cosf c.rotY, sinCamRotY := m.sinf c.rotY }
      ∧ rotateLeft m (rotateRight m c)
        = { c with cosCamRotY := m.cosf c.rotY, sinCamRotY := m.sinf c.rotY }
      ∧ rotateDown m (rotateUp m c)
        = { c with cosCamRotX := m.cosf c.rotX, sinCamRotX := m.sinf c.rotX }
      ∧ rotateUp m (rotateDown m c)
        = { c with cosCamRotX := m.cosf c.rotX, sinCamRotX := m.sinf c.rotX }
      ∧ (rotateRight m (rotateLeft m c)).rotY = c.rotY
      ∧ (rotateLeft m (rotateRight m c)).rotY = c.rotY
      ∧ (rotateDown m (rotateUp m c)).rotX = c.rotX
      ∧ (rotateUp m (rotateDown m c)).rotX = c.rotX := by
  refine ⟨?_, ?_, ?_, ?_, ?_, ?_, ?_, ?_⟩ <;>
    simp [rotateRight, rotateLeft, rotateUp, rotateDown]

/-- C9 at a concrete input: starting from the default camera over the reals, turning left
and then right leaves the yaw at `0` with cached cosine `1` and cached sine `0`. -/
theorem rotate_round_trip_witness :
    (rotateRight ⟨Real.cos, Real.sin, Real.tan, Real.pi⟩
        (rotateLeft ⟨Real.cos, Real.sin, Real.tan, Real.pi⟩
          (CameraTransform.defaultCtor ⟨Real.cos, Real.sin, Real.tan, Real.pi⟩))).rotY = 0
      ∧ (rotateRight ⟨Real.cos, Real.sin, Real.tan, Real.pi⟩
          (rotateLeft ⟨Real.cos, Real.sin, Real.tan, Real.pi⟩
            (CameraTransform.defaultCtor
              ⟨Real.cos, Real.sin, Real.tan, Real.pi⟩))).cosCamRotY = 1
      ∧ (rotateRight ⟨Real.cos, Real.sin, Real.tan, Real.pi⟩
          (rotateLeft ⟨Real.cos, Real.sin, Real.tan, Real.pi⟩
            (CameraTransform.defaultCtor
              ⟨Real.cos, Real.sin, Real.tan, Real.pi⟩))).sinCamRotY = 0 := by
  rw [(rotate_round_trip _ _).1]
  simp [CameraTransform.defaultCtor, CameraTransform.ctor]

end Mutations

section Motion

variable {α : Type} [LinearOrderedField α]

/-- C11: for every camera state with yaw `w = rotY`: `moveForward` changes the position by
`+2 * (cos (w + 90°), 0, sin (w + 90°))` and `moveBackward` by the negation; `moveLeft`
changes it by `+2 * (cos (w + 180°), 0, sin (w + 180°))` and `moveRight` by the negation
(`90°` is `M_PI / 2`, `180°` is `M_PI`); each of the four leaves `camPos.y`, pitch, yaw, all
cached values and the lens unchanged, and `moveForward` / `moveBackward`, as well as
`moveLeft` / `moveRight`, are mutually inverse. -/
theorem move_horizontal (m : Libm α) (c : CameraTransform α) :
    moveForward m c
        = { c with camPos := ⟨c.camPos.x + 2 * m.cosf (c.rotY + m.M_PI / 2), c.camPos.y,
                              c.camPos.z + 2 * m.sinf (c.rotY + m.M_PI / 2)⟩ }
      ∧ moveBackward m c
        = { c with camPos := ⟨c.camPos.x - 2 * m.cosf (c.rotY + m.M_PI / 2), c.camPos.y,
                              c.camPos.z - 2 * m.sinf (c.rotY + m.M_PI / 2)⟩ }
      ∧ moveLeft m c
        = { c with camPos := ⟨c.camPos.x + 2 * m.cosf (c.rotY + m.M_PI), c.camPos.y,
                              c.camPos.z + 2 * m.sinf (c.rotY + m.M_PI)⟩ }
      ∧ moveRight m c
        = { c with camPos := ⟨c.camPos.x - 2 * m.cosf (c.rotY + m.M_PI), c.camPos.y,
                              c.camPos.z - 2 * m.sinf (c.rotY + m.M_PI)⟩ }
      ∧ displacement c (moveForward m c)
        = ⟨2 * m.cosf (c.rotY + m.M_PI / 2), 0, 2 * m.sinf (c.rotY + m.M_PI / 2)⟩
      ∧ displacement c (moveBackward m c)
        = ⟨-(2 * m.cosf (c.rotY + m.M_PI / 2)), 0, -(2 * m.sinf (c.rotY + m.M_PI / 2))⟩
      ∧ displacement c (moveLeft m c)
        = ⟨2 * m.cosf (c.rotY + m.M_PI), 0, 2 * m.sinf (c.rotY + m.M_PI)⟩
      ∧ displacement c (moveRight m c)
        = ⟨-(2 * m.cosf (c.rotY + m.M_PI)), 0, -(2 * m.sinf (c.rotY + m.M_PI))⟩
      ∧ moveBackward m (moveForward m c) = c
      ∧ moveForward m (moveBackward m c) = c
      ∧ moveRight m (moveLeft m c) = c
      ∧ moveLeft m (moveRight m c) = c := by
  have e1 : m.M_PI / 2 + c.rotY = c.rotY + m.M_PI / 2 := add_comm _ _
  have e2 : m.M_PI + c.rotY = c.rotY + m.M_PI := add_comm _ _
  refine ⟨?_, ?_, ?_, ?_, ?_, ?_, ?_, ?_, ?_, ?_, ?_, ?_⟩ <;>
    simp [moveForward, moveBackward, moveLeft, moveRight, displacement, posStep, e1, e2]

/-- C11 at a concrete input: over the reals the default camera, whose yaw is `0`, advances
from `(0, 30, -60)` to `(0, 30, -58)`. -/
theorem move_horizontal_witness :
    (moveForward ⟨Real.cos, Real.sin, Real.tan, Real.pi⟩
      (CameraTransform.defaultCtor ⟨Real.cos, Real.sin, Real.tan, Real.pi⟩)).camPos
      = ⟨0, 30, -58⟩ := by
  rw [(move_horizontal _ _).1]
  simp [CameraTransform.defaultCtor, CameraTransform.ctor]
  norm_num

/-- C12: the strafe axis is orthogonal to the forward axis. Over the reals, with the real
cosine, sine and pi, for every camera state (so for every yaw) the position displacement
produced by `moveLeft` or `moveRight` has zero dot product with the position displacement
produced by `moveForward` or `moveBackward` from the same state; neither displacement is
zero, each having squared length `4`. -/
theorem strafe_orthogonal (m : Libm ℝ) (hm : m = ⟨Real.cos, Real.sin, Real.tan, Real.pi⟩)
    (c : CameraTransform ℝ) :
    dot (displacement c (moveLeft m c)) (displacement c (moveForward m c)) = 0
      ∧ dot (displacement c (moveLeft m c)) (displacement c (moveBackward m c)) = 0
      ∧ dot (displacement c (moveRight m c)) (displacement c (moveForward m c)) = 0
      ∧ dot (displacement c (moveRight m c)) (displacement c (moveBackward m c)) = 0
      ∧ dot (displacement c (moveLeft m c)) (displacement c (moveLeft m c)) = 4
      ∧ dot (displacement c (moveForward m c)) (displacement c (moveForward m c)) = 4 := by
  subst hm
  have hY := Real.cos_sq_add_sin_sq c.rotY
  refine ⟨?_, ?_, ?_, ?_, ?_, ?_⟩ <;>
    simp only [dot, displacement, moveLeft, moveRight, moveForward, moveBackward, posStep,
      Real.cos_add, Real.sin_add, Real.cos_pi, Real.sin_pi, Real.cos_pi_div_two,
      Real.sin_pi_div_two] <;>
    first
      | ring1
      | linear_combination 4 * hY

/-- C12 at a concrete input: the default camera over the reals. -/
theorem strafe_orthogonal_witness :
    dot
      (displacement (CameraTransform.defaultCtor ⟨Real.cos, Real.sin, Real.tan, Real.pi⟩)
        (moveLeft ⟨Real.cos, Real.sin, Real.tan, Real.pi⟩
          (CameraTransform.defaultCtor ⟨Real.cos, Real.sin, Real.tan, Real.pi⟩)))
      (displacement (CameraTransform.defaultCtor ⟨Real.cos, Real.sin, Real.tan, Real.pi⟩)
        (moveForward ⟨Real.cos, Real.sin, Real.tan, Real.pi⟩
          (CameraTransform.defaultCtor ⟨Real.cos, Real.sin, Real.tan, Real.pi⟩))) = 0 :=
  (strafe_orthogonal _ rfl _).1

end Motion

section Invariant

variable {α : Type} [LinearOrderedField α]

/-- The cached values of a camera state agree with its angles and its field of view. -/
theorem applyMutation_cache (m : Libm α) (op : Mutation) (c : CameraTransform α)
    (h : c.cosCamRotX = m.cosf c.rotX ∧ c.sinCamRotX = m.sinf c.rotX
      ∧ c.cosCamRotY = m.cosf c.rotY ∧ c.sinCamRotY = m.sinf c.rotY) :
    (applyMutation m op c).cosCamRotX = m.cosf (applyMutation m op c).rotX
      ∧ (applyMutation m op c).sinCamRotX = m.sinf (applyMutation m op c).rotX
      ∧ (applyMutation m op c).cosCamRotY = m.cosf (applyMutation m op c).rotY
      ∧ (applyMutation m op c).sinCamRotY = m.sinf (applyMutation m op c).rotY := by
  obtain ⟨h1, h2, h3, h4⟩ := h
  cases op <;>
    simp [applyMutation, moveForward, moveBackward, moveLeft, moveRight, moveUp, moveDown,
      rotateUp, rotateDown, rotateLeft, rotateRight, h1, h2, h3, h4]

theorem applyMutation_lens (m : Libm α) (op : Mutation) (c : CameraTransform α) :
    (applyMutation m op c).fov = c.fov
      ∧ (applyMutation m op c).inverseTanCamFovOver2 = c.inverseTanCamFovOver2
      ∧ (applyMutation m op c).width = c.width
      ∧ (applyMutation m op c).height = c.height := by
  cases op <;>
    simp [applyMutation, moveForward, moveBackward, moveLeft, moveRight, moveUp, moveDown,
      rotateUp, rotateDown, rotateLeft, rotateRight]

theorem runMutations_cache (m : Libm α) (ops : List Mutation) (c : CameraTransform α)
    (h : c.cosCamRotX = m.cosf c.rotX ∧ c.sinCamRotX = m.sinf c.rotX
      ∧ c.cosCamRotY = m.cosf c.rotY ∧ c.sinCamRotY = m.sinf c.rotY) :
    (runMutations m ops c).cosCamRotX = m.cosf (runMutations m ops c).rotX
      ∧ (runMutations m ops c).sinCamRotX = m.sinf (runMutations m ops c).rotX
      ∧ (runMutations m ops c).cosCamRotY = m.cosf (runMutations m ops c).rotY
      ∧ (runMutations m ops c).sinCamRotY = m.sinf (runMutations m ops c).rotY := by
  induction ops generalizing c with
  | nil => simpa [runMutations] using h
  | cons op ops ih =>
    have := ih (applyMutation m op c) (applyMutation_cache m op c h)
    simpa [runMutations] using this

theorem runMutations_lens (m : Libm α) (ops : List Mutation) (c : CameraTransform α) :
    (runMutations m ops c).fov = c.fov
      ∧ (runMutations m ops c).inverseTanCamFovOver2 = c.inverseTanCamFovOver2
      ∧ (runMutations m ops c).width = c.width
      ∧ (runMutations m ops c).height = c.height := by
  induction ops generalizing c with
  | nil => simp [runMutations]
  | cons op ops ih =>
    have h1 := ih (applyMutation m op c)
    have h2 := applyMutation_lens m op c
    simp only [runMutations, List.foldl_cons] at h1 ⊢
    rw [h1.1, h1.2.1, h1.2.2.1, h1.2.2.2]
    exact h2

/-- C13: derived-state invariant. In the state produced by the constructor of
`CameraTransform` (whatever its arguments) and after any finite sequence of the ten mutation
methods, `cosCamRotX = cos rotX`, `sinCamRotX = sin rotX`, `cosCamRotY = cos rotY`,
`sinCamRotY = sin rotY` and `inverseTanCamFovOver2 = 1 / tan (fov / 2)`; moreover `fov`,
`inverseTanCamFovOver2`, `width` and `height` are changed by no mutation method, from any
state, so that they keep the values the constructor gave them. -/
theorem cache_invariant [FloorRing α] (m : Libm α) (camPos : Vec3 α)
    (rotX rotY fov width height : α) (ops : List Mutation) (c : CameraTransform α)
    (hc : c = runMutations m ops (CameraTransform.ctor m camPos rotX rotY fov width height)) :
    c.cosCamRotX = m.cosf c.rotX
      ∧ c.sinCamRotX = m.sinf c.rotX
      ∧ c.cosCamRotY = m.cosf c.rotY
      ∧ c.sinCamRotY = m.sinf c.rotY
      ∧ c.inverseTanCamFovOver2 = 1 / m.tanf (c.fov / 2)
      ∧ c.fov = fov
      ∧ c.width = floatToInt width
      ∧ c.height = floatToInt height
      ∧ (∀ (op : Mutation) (k : CameraTransform α),
          (applyMutation m op k).fov = k.fov
            ∧ (applyMutation m op k).inverseTanCamFovOver2 = k.inverseTanCamFovOver2
            ∧ (applyMutation m op k).width = k.width
            ∧ (applyMutation m op k).height = k.height)
      ∧ (∀ (k : CameraTransform α),
          (runMutations m ops k).fov = k.fov
            ∧ (runMutations m ops k).inverseTanCamFovOver2 = k.inverseTanCamFovOver2
            ∧ (runMutations m ops k).width = k.width
            ∧ (runMutations m ops k).height = k.height) := by
  subst hc
  have hc := runMutations_cache m ops
    (CameraTransform.ctor m camPos rotX rotY fov width height) ⟨rfl, rfl, rfl, rfl⟩
  have hl := runMutations_lens m ops
    (CameraTransform.ctor m camPos rotX rotY fov width height)
  refine ⟨hc.1, hc.2.1, hc.2.2.1, hc.2.2.2, ?_, ?_, ?_, ?_, applyMutation_lens m,
    runMutations_lens m ops⟩
  · rw [hl.1, hl.2.1]
    rfl
  · rw [hl.1]
    rfl
  · rw [hl.2.2.1]
    rfl
  · rw [hl.2.2.2]
    rfl

/-- C13 at a concrete input: over the reals, after the default camera has turned up, moved
forward and turned left, its cached yaw cosine is the cosine of its yaw, two degrees. -/
theorem cache_invariant_witness :
    (runMutations ⟨Real.cos, Real.sin, Real.tan, Real.pi⟩
        [Mutation.rotateUp, Mutation.moveForward, Mutation.rotateLeft]
        (CameraTransform.defaultCtor ⟨Real.cos, Real.sin, Real.tan, Real.pi⟩)).cosCamRotY
      = Real.cos (2 * Real.pi / 180) :=
  ((cache_invariant ⟨Real.cos, Real.sin, Real.tan, Real.pi⟩ ⟨0, 30, -60⟩
      (-30 * Real.pi / 180) 0 (Real.pi / 2) 400 400
      [Mutation.rotateUp, Mutation.moveForward, Mutation.rotateLeft] _ rfl).2.2.1).trans
    (by simp [runMutations, applyMutation, rotateUp, moveForward, rotateLeft, rotStep,
      CameraTransform.ctor])

/-- C14, as stated, fails: the camera on the axis maps the point `(0, 0, -2, 7)`, which lies
behind it, to the sentinel, whose attribute is `0` and not `7`, and whose `z` is `-1` and not
the camera-space depth `-2`. -/
theorem transformVec_attribute_counterexample :
    (transformVec axisCamera ⟨0, 0, -2, 7⟩).a ≠ (⟨0, 0, -2, 7⟩ : Vec4 ℚ).a
      ∧ (transformVec axisCamera ⟨0, 0, -2, 7⟩).z
          ≠ (cameraSpace axisCamera ⟨0, 0, -2, 7⟩).z := by
  norm_num [transformVec, transformVecTraced, cameraSpace, axisCamera]

/-- C14, amended: for every camera state and every input point `v` whose camera-space depth
is positive, `(transformVec v).a = v.a` and `(transformVec v).z` is the camera-space depth of
`v`; a point whose camera-space depth is `≤ 0` is mapped to the sentinel, of attribute `0`
and `z = -1`. -/
theorem transformVec_attribute (c : CameraTransform α) (v : Vec4 α)
    (hpos : 0 < (cameraSpace c v).z) :
    (transformVec c v).a = v.a
      ∧ (transformVec c v).z = (cameraSpace c v).z
      ∧ (∀ u : Vec4 α, (cameraSpace c u).z ≤ 0 →
          transformVec c u = ⟨0, 0, -1, 0⟩) := by
  have hn : ¬ (cameraSpace c v).z ≤ 0 := not_le.2 hpos
  refine ⟨?_, ?_, ?_⟩
  · simp [transformVec, transformVecTraced, hn]
  · simp [transformVec, transformVecTraced, hn]
  · intro u hu
    simp [transformVec, transformVecTraced, hu]

/-- C14 amended, at a concrete input: the tilted camera maps `(5, 7, 6, 9)`, of depth `4`,
to a point of attribute `9` and depth `4`. -/
theorem transformVec_attribute_witness :
    (transformVec tiltedCamera ⟨5, 7, 6, 9⟩).a = 9
      ∧ (transformVec tiltedCamera ⟨5, 7, 6, 9⟩).z = 4 := by
  have h := transformVec_attribute tiltedCamera ⟨5, 7, 6, 9⟩
    (by norm_num [cameraSpace, tiltedCamera])
  refine ⟨h.1, h.2.1.trans ?_⟩
  norm_num [cameraSpace, tiltedCamera]

end Invariant

section Events

variable {α : Type} [LinearOrderedField α] [FloorRing α]

/-- C17, as stated, fails: over the reals, a key-up event of the Up key, sent to a manager
that holds the default camera and has drawn no frame yet, moves the camera from
`(0, 30, -60)` to `(0, 30, -58)` and draws a frame. -/
theorem handleEvent_keyup_counterexample :
    (handleEvent ⟨Real.cos, Real.sin, Real.tan, Real.pi⟩
        ⟨⟨[], CameraTransform.defaultCtor ⟨Real.cos, Real.sin, Real.tan, Real.pi⟩,
          FunctionSpace.defaultCtor⟩, true, []⟩
        ⟨EventType.SDL_KEYUP, Keycode.SDLK_UP⟩).modeler.camTransform.camPos = ⟨0, 30, -58⟩
      ∧ (CameraTransform.defaultCtor ⟨Real.cos, Real.sin, Real.tan, Real.pi⟩).camPos
          = ⟨0, 30, -60⟩
      ∧ (handleEvent ⟨Real.cos, Real.sin, Real.tan, Real.pi⟩
        ⟨⟨[], CameraTransform.defaultCtor ⟨Real.cos, Real.sin, Real.tan, Real.pi⟩,
          FunctionSpace.defaultCtor⟩, true, []⟩
        ⟨EventType.SDL_KEYUP, Keycode.SDLK_UP⟩).frames.length = 1 := by
  refine ⟨?_, ?_, ?_⟩
  · simp [handleEvent, Manager.mutate, Manager.redraw, moveForward, posStep,
      CameraTransform.defaultCtor, CameraTransform.ctor]
    norm_num
  · simp [CameraTransform.defaultCtor, CameraTransform.ctor]
  · simp [handleEvent, Manager.mutate, Manager.redraw]

/-- C17, amended: the event handling step looks at the type of an event only to tell the
quit signal apart. A quit event clears `running`, leaves the camera unchanged and draws no
frame. Every other event, whatever its type (key-down and key-up alike), is dispatched on
the key symbol read from it: if that is one of the eight mapped keys, the mapped method is
applied to the camera and one frame is drawn from the new state, nothing else changing; if
it is any other symbol, the manager is left as it is (camera unchanged, no frame drawn). -/
theorem handleEvent_dispatch (m : Libm α) (mg : Manager α) (e : Event)
    (hq : e.type ≠ EventType.SDL_QUIT) :
    (∀ f, keyBinding m e.sym = some f →
        handleEvent m mg e
          = ⟨{ mg.modeler with camTransform := f mg.modeler.camTransform }, mg.running,
              mg.frames
                ++ [redraw { mg.modeler with camTransform := f mg.modeler.camTransform }]⟩)
      ∧ (keyBinding m e.sym = none → handleEvent m mg e = mg)
      ∧ (∀ k : Keycode,
          handleEvent m mg ⟨EventType.SDL_QUIT, k⟩ = ⟨mg.modeler, false, mg.frames⟩) := by
  refine ⟨?_, ?_, ?_⟩
  · intro f hf
    cases hs : e.sym <;> rw [hs] at hf <;>
      simp only [keyBinding, Option.some.injEq] at hf <;>
      first
        | (subst hf; simp [handleEvent, hq, hs, Manager.mutate, Manager.redraw])
        | exact absurd hf (by simp)
  · intro hn
    cases hs : e.sym <;> rw [hs] at hn <;> simp [keyBinding] at hn
    simp [handleEvent, hq, hs]
  · intro k
    simp [handleEvent]

/-- C17 amended, at a concrete input: over the reals, a key-down event of the key `a`
turns the default camera left, to a yaw of two degrees, and draws one frame. -/
theorem handleEvent_dispatch_witness :
    (handleEvent ⟨Real.cos, Real.sin, Real.tan, Real.pi⟩
        ⟨⟨[], CameraTransform.defaultCtor ⟨Real.cos, Real.sin, Real.tan, Real.pi⟩,
          FunctionSpace.defaultCtor⟩, true, []⟩
        ⟨EventType.SDL_KEYDOWN, Keycode.SDLK_a⟩).modeler.camTransform.rotY
        = 2 * Real.pi / 180
      ∧ (handleEvent ⟨Real.cos, Real.sin, Real.tan, Real.pi⟩
        ⟨⟨[], CameraTransform.defaultCtor ⟨Real.cos, Real.sin, Real.tan, Real.pi⟩,
          FunctionSpace.defaultCtor⟩, true, []⟩
        ⟨EventType.SDL_KEYDOWN, Keycode.SDLK_a⟩).frames.length = 1 := by
  rw [(handleEvent_dispatch ⟨Real.cos, Real.sin, Real.tan, Real.pi⟩ _
    ⟨EventType.SDL_KEYDOWN, Keycode.SDLK_a⟩ (by decide)).1 _ rfl]
  simp [rotateLeft, rotStep, CameraTransform.defaultCtor, CameraTransform.ctor]

end Events

section Geometry

/-- C18: `moveForward` moves the camera along its own viewing direction. Over the reals, for
every camera state whose caches agree with its angles and every world point, the
camera-space coordinates that `transformVec` computes before the near-plane test change,
after `moveForward`, by exactly `(0, +2 * sin pitch, -2 * cos pitch)`; with pitch `0` the
camera-space `x` and `y` are unchanged and the depth decreases by exactly `2`. `moveLeft`
changes the camera-space `x` of every point by exactly `+2` and leaves its camera-space `y`
and depth unchanged. -/
theorem move_in_cameraSpace (m : Libm ℝ) (hm : m = ⟨Real.cos, Real.sin, Real.tan, Real.pi⟩)
    (c : CameraTransform ℝ)
    (hcx : c.cosCamRotX = Real.cos c.rotX) (hsx : c.sinCamRotX = Real.sin c.rotX)
    (hcy : c.cosCamRotY = Real.cos c.rotY) (hsy : c.sinCamRotY = Real.sin c.rotY)
    (v : Vec4 ℝ) :
    cameraSpace (moveForward m c) v
        = ⟨(cameraSpace c v).x, (cameraSpace c v).y + 2 * Real.sin c.rotX,
            (cameraSpace c v).z - 2 * Real.cos c.rotX⟩
      ∧ (c.rotX = 0 → cameraSpace (moveForward m c) v
        = ⟨(cameraSpace c v).x, (cameraSpace c v).y, (cameraSpace c v).z - 2⟩)
      ∧ cameraSpace (moveLeft m c) v
        = ⟨(cameraSpace c v).x + 2, (cameraSpace c v).y, (cameraSpace c v).z⟩ := by
  subst hm
  have hY := Real.cos_sq_add_sin_sq c.rotY
  have hf : cameraSpace (moveForward ⟨Real.cos, Real.sin, Real.tan, Real.pi⟩ c) v
      = ⟨(cameraSpace c v).x, (cameraSpace c v).y + 2 * Real.sin c.rotX,
          (cameraSpace c v).z - 2 * Real.cos c.rotX⟩ := by
    simp only [cameraSpace, moveForward, posStep, hcx, hsx, hcy, hsy, Real.cos_add,
      Real.sin_add, Real.cos_pi_div_two, Real.sin_pi_div_two, Vec3.mk.injEq]
    refine ⟨?_, ?_, ?_⟩
    · ring
    · linear_combination (2 * Real.sin c.rotX) * hY
    · linear_combination (-2 * Real.cos c.rotX) * hY
  refine ⟨hf, ?_, ?_⟩
  · intro h0
    rw [hf, h0]
    simp
  · simp only [cameraSpace, moveLeft, posStep, hcx, hsx, hcy, hsy, Real.cos_add,
      Real.sin_add, Real.cos_pi, Real.sin_pi, Vec3.mk.injEq]
    refine ⟨?_, ?_, ?_⟩
    · linear_combination 2 * hY
    · ring
    · ring

/-- C18 at a concrete input: for the default camera over the reals, whose pitch is -30
degrees, `moveForward` lowers the camera-space depth of the world point `(0, 30, 60)` from
`60 * sqrt 3` by `sqrt 3`. -/
theorem move_in_cameraSpace_witness :
    (cameraSpace
        (moveForward ⟨Real.cos, Real.sin, Real.tan, Real.pi⟩
          (CameraTransform.defaultCtor ⟨Real.cos, Real.sin, Real.tan, Real.pi⟩))
        ⟨0, 30, 60, 0⟩).z
      = (cameraSpace (CameraTransform.defaultCtor ⟨Real.cos, Real.sin, Real.tan, Real.pi⟩)
          ⟨0, 30, 60, 0⟩).z
        - 2 * Real.cos (-30 * Real.pi / 180) := by
  rw [(move_in_cameraSpace _ rfl
    (CameraTransform.defaultCtor ⟨Real.cos, Real.sin, Real.tan, Real.pi⟩)
    rfl rfl rfl rfl ⟨0, 30, 60, 0⟩).1]
  rfl

/-- C19: points on the optical axis project to the screen centre. Over the reals, for every
camera state whose cached values are the cosine and sine of a pitch `P` and a yaw `Y`, every
`t > 0` and every attribute `a`, the world point
`camPos + t * (-cos P * sin Y, sin P, cos P * cos Y)` with attribute `a` is mapped by
`transformVec` to `(width / 2, height / 2, t, a)`. -/
theorem optical_axis_centre (c : CameraTransform ℝ) (P Y : ℝ)
    (hcx : c.cosCamRotX = Real.cos P) (hsx : c.sinCamRotX = Real.sin P)
    (hcy : c.cosCamRotY = Real.cos Y) (hsy : c.sinCamRotY = Real.sin Y)
    (t : ℝ) (ht : 0 < t) (a : ℝ) :
    transformVec c
        ⟨c.camPos.x + t * (-Real.cos P * Real.sin Y), c.camPos.y + t * Real.sin P,
          c.camPos.z + t * (Real.cos P * Real.cos Y), a⟩
      = ⟨(c.width : ℝ) / 2, (c.height : ℝ) / 2, t, a⟩ := by
  have hP := Real.cos_sq_add_sin_sq P
  have hY := Real.cos_sq_add_sin_sq Y
  have hcam : cameraSpace c
      ⟨c.camPos.x + t * (-Real.cos P * Real.sin Y), c.camPos.y + t * Real.sin P,
        c.camPos.z + t * (Real.cos P * Real.cos Y), a⟩ = ⟨0, 0, t⟩ := by
    simp only [cameraSpace, hcx, hsx, hcy, hsy, Vec3.mk.injEq]
    refine ⟨?_, ?_, ?_⟩
    · ring
    · linear_combination (-t * Real.cos P * Real.sin P) * hY
    · linear_combination (t * Real.cos P ^ 2) * hY + t * hP
  have hn : ¬ t ≤ 0 := not_le.2 ht
  unfold transformVec transformVecTraced
  simp only [hcam, hn, if_false, zero_div, zero_mul, add_zero, sub_zero, Vec4.mk.injEq]
  refine ⟨?_, ?_, trivial, trivial⟩ <;> norm_num <;> ring

/-- C19 at a concrete input: the default camera over the reals maps the point at distance
`5` along its optical axis to `(200, 200, 5, 1)`. -/
theorem optical_axis_centre_witness :
    transformVec (CameraTransform.defaultCtor ⟨Real.cos, Real.sin, Real.tan, Real.pi⟩)
        ⟨0 + 5 * (-Real.cos (-30 * Real.pi / 180) * Real.sin 0),
          30 + 5 * Real.sin (-30 * Real.pi / 180),
          -60 + 5 * (Real.cos (-30 * Real.pi / 180) * Real.cos 0), 1⟩
      = ⟨200, 200, 5, 1⟩ :=
  (optical_axis_centre
    (CameraTransform.defaultCtor ⟨Real.cos, Real.sin, Real.tan, Real.pi⟩)
    (-30 * Real.pi / 180) 0 rfl rfl rfl rfl 5 (by norm_num) 1).trans
    (by
      have hw : floatToInt (400 : ℝ) = 400 := floatToInt_400
      simp only [CameraTransform.defaultCtor, CameraTransform.ctor, hw]
      norm_num)

end Geometry

section Range

variable {α : Type} [LinearOrderedField α]

theorem floatToUint8_range [FloorRing α] (f : α) (h0 : 0 ≤ f) (h1 : f ≤ 250) :
    0 ≤ floatToUint8 f ∧ floatToUint8 f ≤ 250 ∧ floatToUint8 f = floatToInt f := by
  have hf : floatToInt f = Int.floor f :=
    floatToInt_of_nonneg f h0 (le_trans h1 (by norm_num))
  have ha : 0 ≤ Int.floor f := Int.floor_nonneg.2 h0
  have hb : Int.floor f ≤ 250 := by
    have : ((Int.floor f : Int) : α) ≤ ((250 : Int) : α) := by
      push_cast
      exact le_trans (Int.floor_le f) h1
    exact_mod_cast this
  rw [floatToUint8, hf]
  omega

theorem interpolateColor_x_range (a : α) (_ : 0 ≤ a) (h1 : a ≤ 1) :
    (min (anchor (bracketIndex a) : Vec3 α).x (anchor (bracketIndex a + 1) : Vec3 α).x
        ≤ (interpolateColor a).x
      ∧ (interpolateColor a).x
        ≤ max (anchor (bracketIndex a) : Vec3 α).x (anchor (bracketIndex a + 1) : Vec3 α).x)
      ∧ (0 ≤ (interpolateColor a).x ∧ (interpolateColor a).x ≤ 250) := by
  have e2 : (0.2 : α) = 1 / 5 := by norm_num
  have e4 : (0.4 : α) = 2 / 5 := by norm_num
  have e6 : (0.6 : α) = 3 / 5 := by norm_num
  have e8 : (0.8 : α) = 4 / 5 := by norm_num
  rw [interpolateColor_closed, bracketIndex_eq, e2, e4, e6, e8]
  split_ifs <;>
    norm_num [anchor, palette, Bounds.bound1, Bounds.bound2, Bounds.bound3, Bounds.bound4,
      Bounds.bound5, Bounds.bound6] <;>
    (try constructor) <;> (try constructor) <;> linarith

theorem interpolateColor_y_range (a : α) (h0 : 0 ≤ a) (h1 : a ≤ 1) :
    (min (anchor (bracketIndex a) : Vec3 α).y (anchor (bracketIndex a + 1) : Vec3 α).y
        ≤ (interpolateColor a).y
      ∧ (interpolateColor a).y
        ≤ max (anchor (bracketIndex a) : Vec3 α).y (anchor (bracketIndex a + 1) : Vec3 α).y)
      ∧ (0 ≤ (interpolateColor a).y ∧ (interpolateColor a).y ≤ 250) := by
  have e2 : (0.2 : α) = 1 / 5 := by norm_num
  have e4 : (0.4 : α) = 2 / 5 := by norm_num
  have e6 : (0.6 : α) = 3 / 5 := by norm_num
  have e8 : (0.8 : α) = 4 / 5 := by norm_num
  rw [interpolateColor_closed, bracketIndex_eq, e2, e4, e6, e8]
  split_ifs <;>
    norm_num [anchor, palette, Bounds.bound1, Bounds.bound2, Bounds.bound3, Bounds.bound4,
      Bounds.bound5, Bounds.bound6] <;>
    (try constructor) <;> (try constructor) <;> linarith

theorem interpolateColor_z_range (a : α) (h0 : 0 ≤ a) (h1 : a ≤ 1) :
    (min (anchor (bracketIndex a) : Vec3 α).z (anchor (bracketIndex a + 1) : Vec3 α).z
        ≤ (interpolateColor a).z
      ∧ (interpolateColor a).z
        ≤ max (anchor (bracketIndex a) : Vec3 α).z (anchor (bracketIndex a + 1) : Vec3 α).z)
      ∧ (0 ≤ (interpolateColor a).z ∧ (interpolateColor a).z ≤ 250) := by
  have e2 : (0.2 : α) = 1 / 5 := by norm_num
  have e4 : (0.4 : α) = 2 / 5 := by norm_num
  have e6 : (0.6 : α) = 3 / 5 := by norm_num
  have e8 : (0.8 : α) = 4 / 5 := by norm_num
  rw [interpolateColor_closed, bracketIndex_eq, e2, e4, e6, e8]
  split_ifs <;>
    norm_num [anchor, palette, Bounds.bound1, Bounds.bound2, Bounds.bound3, Bounds.bound4,
      Bounds.bound5, Bounds.bound6] <;>
    (try constructor) <;> (try constructor) <;> linarith

end Range

section Sampling

variable {α : Type} [LinearOrderedField α] [FloorRing α]

end Sampling

section Drawing

variable {α : Type} [LinearOrderedField α] [FloorRing α]

theorem redrawStep_foldl (l : List (Vec4 α)) (calls : List DrawCall) :
    l.foldl redrawStep calls
      = calls ++ (l.map (fun v =>
          [DrawCall.SetRenderDrawColor (floatToUint8 (interpolateColor v.a).x)
              (floatToUint8 (interpolateColor v.a).y) (floatToUint8 (interpolateColor v.a).z)
              255,
            DrawCall.RenderDrawPoint (floatToInt v.x) (floatToInt v.y)])).flatten := by
  induction l generalizing calls with
  | nil => simp
  | cons v vs ih =>
    rw [List.foldl_cons, ih]
    simp [redrawStep]

theorem plottedPixels_append (l r : List DrawCall) :
    plottedPixels (l ++ r) = plottedPixels l ++ plottedPixels r := by
  induction l with
  | nil => simp [plottedPixels]
  | cons c cs ih =>
    cases c <;> simp [plottedPixels, ih]

theorem plottedPixels_points (l : List (Vec4 α)) :
    plottedPixels ((l.map (fun v =>
          [DrawCall.SetRenderDrawColor (floatToUint8 (interpolateColor v.a).x)
              (floatToUint8 (interpolateColor v.a).y) (floatToUint8 (interpolateColor v.a).z)
              255,
            DrawCall.RenderDrawPoint (floatToInt v.x) (floatToInt v.y)])).flatten)
      = l.map (fun v => (floatToInt v.x, floatToInt v.y)) := by
  induction l with
  | nil => simp [plottedPixels]
  | cons v vs ih =>
    simp only [List.map_cons, List.flatten_cons, plottedPixels_append, ih]
    simp [plottedPixels]

/-- A colour channel between `0` and `250` is converted to its integer part. -/
theorem floatToUint8_eq_truncate (f : α) (h0 : 0 ≤ f) (h1 : f ≤ 250) :
    floatToUint8 f = truncate f := by
  have ht : truncate f = Int.floor f := by simp [truncate, h0]
  rw [(floatToUint8_range f h0 h1).2.2, floatToInt_of_nonneg f h0 (le_trans h1 (by norm_num)),
    ht]

theorem offGridScene_visible :
    getSolutionsInRenderSpace offGridScene = [⟨1004 / 5, 200, 500, 0⟩] := by
  norm_num [getSolutionsInRenderSpace, offGridScene, transformSpace, transformSpaceStep,
    transformVec, transformVecTraced, cameraSpace, axisCamera, stdSort, sortInsert]

theorem truncate_offGrid : truncate (1004 / 5 : ℚ) = 200 ∧ truncate (200 : ℚ) = 200 := by
  constructor
  · rw [truncate, if_pos (by norm_num), Int.floor_eq_iff]
    norm_num
  · simp [truncate]

theorem floatToInt_offGrid :
    floatToInt (1004 / 5 : ℚ) = 200 ∧ floatToInt (200 : ℚ) = 200 := by
  constructor
  · rw [floatToInt_of_nonneg _ (by norm_num) (by norm_num), Int.floor_eq_iff]
    norm_num
  · rw [floatToInt_of_nonneg _ (by norm_num) (by norm_num)]
    simp

/-- C16, as stated, fails: for the scene whose one visible point has screen position
`(200.8, 200)`, `redraw` plots the pixel `(200, 200)`, while rounding to the nearest integer
gives `(201, 200)`. -/
theorem redraw_rounding_counterexample :
    plottedPixels (redraw offGridScene) = [(200, 200)]
      ∧ (getSolutionsInRenderSpace offGridScene).map (fun v => (round v.x, round v.y))
          = [(201, 200)]
      ∧ plottedPixels (redraw offGridScene)
          ≠ (getSolutionsInRenderSpace offGridScene).map (fun v => (round v.x, round v.y)) := by
  have hr : round (1004 / 5 : ℚ) = 201 := by
    rw [round_eq, Int.floor_eq_iff]; norm_num
  have h1 : plottedPixels (redraw offGridScene) = [(200, 200)] := by
    unfold redraw
    simp only [offGridScene_visible, redrawStep_foldl, plottedPixels_append,
      plottedPixels_points]
    simp [plottedPixels, floatToInt_offGrid.1, floatToInt_offGrid.2]
  have h2 : (getSolutionsInRenderSpace offGridScene).map (fun v => (round v.x, round v.y))
      = [(201, 200)] := by
    simp [offGridScene_visible, hr]
  refine ⟨h1, h2, ?_⟩
  rw [h1, h2]
  decide

/-- C16, amended: on each redraw whose visible points have screen coordinates that,
truncated towards zero, are `int` values (between `INT_MIN` and `INT_MAX`): for every visible
point `(screenX, screenY, depth, a)` of the sorted list exactly one pixel is plotted, in list
order, at the integer coordinates obtained by truncating `screenX` and `screenY` towards
zero (the conversion of `float` to `int`). When moreover every visible attribute lies in
`[0, 1]`, the calls issued are: set the draw colour to opaque black, clear; then for every
visible point, in list order, set the draw colour to the channels of `interpolateColor a`
truncated to integers with alpha `255` and plot its pixel; then present. Truncation is the
floor of a non-negative value and the ceiling of a negative one. -/
theorem redraw_calls (md : Modeler α)
    (hfit : ∀ v ∈ getSolutionsInRenderSpace md,
      (INT_MIN ≤ truncate v.x ∧ truncate v.x ≤ INT_MAX)
        ∧ (INT_MIN ≤ truncate v.y ∧ truncate v.y ≤ INT_MAX)) :
    plottedPixels (redraw md)
        = (getSolutionsInRenderSpace md).map (fun v => (truncate v.x, truncate v.y))
      ∧ ((∀ v ∈ getSolutionsInRenderSpace md, 0 ≤ v.a ∧ v.a ≤ 1) →
          redraw md
            = [DrawCall.SetRenderDrawColor 0 0 0 255, DrawCall.RenderClear]
              ++ ((getSolutionsInRenderSpace md).map (fun v =>
                  [DrawCall.SetRenderDrawColor (truncate (interpolateColor v.a).x)
                      (truncate (interpolateColor v.a).y)
                      (truncate (interpolateColor v.a).z) 255,
                    DrawCall.RenderDrawPoint (truncate v.x) (truncate v.y)])).flatten
              ++ [DrawCall.RenderPresent])
      ∧ (∀ f : α, 0 ≤ f → truncate f = Int.floor f)
      ∧ (∀ f : α, f < 0 → truncate f = Int.ceil f) := by
  refine ⟨?_, ?_, ?_, ?_⟩
  · unfold redraw
    simp only [redrawStep_foldl, plottedPixels_append, plottedPixels_points]
    simp only [plottedPixels, List.nil_append, List.append_nil]
    apply List.map_congr_left
    intro v hv
    rw [floatToInt_of_fits v.x (hfit v hv).1.1 (hfit v hv).1.2,
      floatToInt_of_fits v.y (hfit v hv).2.1 (hfit v hv).2.2]
  · intro ha
    unfold redraw
    simp only [redrawStep_foldl]
    congr 3
    apply List.map_congr_left
    intro v hv
    have hx := (interpolateColor_x_range v.a (ha v hv).1 (ha v hv).2).2
    have hy := (interpolateColor_y_range v.a (ha v hv).1 (ha v hv).2).2
    have hz := (interpolateColor_z_range v.a (ha v hv).1 (ha v hv).2).2
    rw [floatToInt_of_fits v.x (hfit v hv).1.1 (hfit v hv).1.2,
      floatToInt_of_fits v.y (hfit v hv).2.1 (hfit v hv).2.2,
      floatToUint8_eq_truncate _ hx.1 hx.2, floatToUint8_eq_truncate _ hy.1 hy.2,
      floatToUint8_eq_truncate _ hz.1 hz.2]
  · intro f hf
    simp [truncate, hf]
  · intro f hf
    simp [truncate, not_le.2 hf]

/-- C16 amended, at a concrete input: the scene with the visible point `(200.8, 200)` has the
pixel `(200, 200)` plotted. -/
theorem redraw_calls_witness :
    plottedPixels (redraw offGridScene) = [(200, 200)] := by
  have hfit : ∀ v ∈ getSolutionsInRenderSpace offGridScene,
      (INT_MIN ≤ truncate v.x ∧ truncate v.x ≤ INT_MAX)
        ∧ (INT_MIN ≤ truncate v.y ∧ truncate v.y ≤ INT_MAX) := by
    intro v hv
    rw [offGridScene_visible] at hv
    rw [List.mem_singleton.1 hv]
    simp only [truncate_offGrid.1, truncate_offGrid.2, INT_MIN, INT_MAX]
    decide
  rw [(redraw_calls offGridScene hfit).1, offGridScene_visible]
  simp [truncate_offGrid.1, truncate_offGrid.2]

end Drawing

end Renderer
